import Mathlib

/-!
Shallow embedding of the linker abstraction layer of this repository
(mesonbuild/linkers.py), restricted to the parts the verified claims are
about: the RPATH engine (evaluate_rpath, order_rpaths, prepare_rpaths and
the build_rpath_args methods of the GNU-like, Apple and Solaris dynamic
linkers), SONAME construction, whole-archive wrapping, the
position-independent-executable capability default, the CUDA linker's
version parse, and sanitizer arguments.

Paths are modelled with POSIX semantics (Python's posixpath), matching the
platforms the RPATH claims are about ($ORIGIN and @loader_path targets).
The os.path functions that consult the process working directory (abspath,
and relpath through it) receive it as an explicit parameter cwd.  Python
exceptions are modelled with Option (os.path.relpath raises ValueError on
an empty path) and Except (mesonlib.EnvironmentException).
-/

/-- posixpath.isabs: a POSIX path is absolute iff it starts with a slash. -/
def isabs (p : String) : Bool :=
  match p.toList with
  | [] => false
  | c :: _ => c = '/'

/-- Helper for posixpath.join: whether the accumulated path ends in a slash. -/
def ends_with_slash (s : String) : Bool :=
  match s.toList.getLast? with
  | some c => c = '/'
  | none => false

/-- posixpath.join restricted to two components, as used throughout the
source: an absolute second component replaces the first; otherwise the
second is appended, with a separating slash unless the first component is
empty or already ends in a slash. -/
def path_join (a b : String) : String :=
  if isabs b then b
  else if a = "" ∨ ends_with_slash a then a ++ b
  else a ++ "/" ++ b

/-- Python str.split with a one-character separator, over character lists.
Splitting the empty list yields one empty group, exactly like ''.split(c). -/
def splitCharAux (c : Char) : List Char → List (List Char)
  | [] => [[]]
  | x :: xs =>
    match splitCharAux c xs with
    | [] => [[]]
    | g :: gs => if x = c then [] :: g :: gs else (x :: g) :: gs

/-- Python sep.join for a list of components. -/
def str_join (sep : String) : List String → String
  | [] => ""
  | [x] => x
  | x :: y :: xs => x ++ sep ++ str_join sep (y :: xs)

/-- posixpath.normpath's initial_slashes computation: one leading slash is
kept as one, exactly two are kept as two (POSIX allows // to be special),
three or more collapse to one. -/
def initial_slashes_count (path : String) : Nat :=
  match path.toList with
  | '/' :: '/' :: '/' :: _ => 1
  | '/' :: '/' :: _ => 2
  | '/' :: _ => 1
  | _ => 0

/-- posixpath.normpath: collapse empty and '.' components, resolve '..'
against preceding components where possible, keep the counted leading
slashes, and map the empty result to '.'. -/
def normpath (path : String) : String :=
  if path = "" then "."
  else
    let islashes := initial_slashes_count path
    let comps := (splitCharAux '/' path.toList).map String.mk
    let new_comps := comps.foldl (fun new_comps comp =>
      if comp = "" ∨ comp = "." then new_comps
      else if comp ≠ ".." ∨ (islashes = 0 ∧ new_comps = []) ∨
          (new_comps ≠ [] ∧ new_comps.getLast? = some "..") then
        new_comps ++ [comp]
      else if new_comps ≠ [] then new_comps.dropLast
      else new_comps) ([] : List String)
    let joined := String.mk (List.replicate islashes '/') ++ str_join "/" new_comps
    if joined = "" then "." else joined

/-- posixpath.abspath, with the process working directory cwd explicit:
anchor a relative path at cwd, then normalize. -/
def abspath (cwd path : String) : String :=
  if !isabs path then normpath (path_join cwd path) else normpath path

/-- Length of the longest common prefix of two component lists, as computed
by posixpath.relpath's zip-and-break loop. -/
def commonPrefixLen : List String → List String → Nat
  | x :: xs, y :: ys => if x = y then commonPrefixLen xs ys + 1 else 0
  | _, _ => 0

/-- posixpath.relpath with the process working directory explicit.  Python
raises ValueError on an empty path, modelled as none.  Both arguments are
made absolute, split into nonempty components, and the result climbs out of
start's unshared suffix with '..' components before descending into path's. -/
def relpath (cwd path start : String) : Option String :=
  if path = "" then none
  else
    let start_abs := abspath cwd start
    let path_abs := abspath cwd path
    let start_list := ((splitCharAux '/' start_abs.toList).map String.mk).filter (fun x => x ≠ "")
    let path_list := ((splitCharAux '/' path_abs.toList).map String.mk).filter (fun x => x ≠ "")
    let i := commonPrefixLen start_list path_list
    let rel_list := List.replicate (start_list.length - i) ".." ++ path_list.drop i
    if rel_list = [] then some "."
    else some (str_join "/" rel_list)

/-- evaluate_rpath (linkers.py): an entry equal to from_dir resolves to the
empty string (relpath errors out in this case), an absolute entry passes
through unchanged, and a relative entry is resolved relative to from_dir,
anchored at build_dir. -/
def evaluate_rpath (cwd p build_dir from_dir : String) : Option String :=
  if p = from_dir then some ""
  else if isabs p then some p
  else relpath cwd (path_join build_dir p) (path_join build_dir from_dir)

/-- Stable insertion step for order_rpaths: walk past entries whose key
(os.path.isabs) is strictly smaller, insert before the first entry whose key
is at least as large, so equal-key entries keep their original order. -/
def rpath_insert (x : String) : List String → List String
  | [] => [x]
  | y :: ys => if !isabs y && isabs x then y :: rpath_insert x ys else x :: y :: ys

/-- order_rpaths (linkers.py): sorted(rpath_list, key=os.path.isabs).
Python's sorted is a stable sort; a stable sort by a Boolean key (False
before True) is realized here as a stable insertion sort. -/
def order_rpaths (rpath_list : List String) : List String :=
  rpath_list.foldr rpath_insert []

/-- prepare_rpaths (linkers.py): resolve every raw entry, then order the
resolved list.  A ValueError from relpath propagates, modelled by mapM over
Option. -/
def prepare_rpaths (cwd : String) (raw_rpaths : List String) (build_dir from_dir : String) :
    Option (List String) :=
  (raw_rpaths.mapM (fun p => evaluate_rpath cwd p build_dir from_dir)).map order_rpaths

/-- Argument-prefix strategy of DynamicLinker: either a literal string
concatenated onto the argument, or a fixed token list followed by the
argument (prefix_arg is typing.Union of str and list of str). -/
inductive PrefixArg where
  | str (s : String)
  | list (l : List String)
deriving DecidableEq

/-- DynamicLinker._apply_prefix: one prefixed token for a string prefix, or
the wrapping token list followed by the argument. -/
def apply_pfx : PrefixArg → String → List String
  | .str s, arg => [s ++ arg]
  | .list l, arg => l ++ [arg]

/-- Target machine queries used by the GNU-like mixin:
env.machines[self.for_machine].is_windows() and .is_cygwin(). -/
structure Machine where
  is_windows : Bool
  is_cygwin : Bool

/-- Host queries of mesonlib consulted by GnuLikeDynamicLinkerMixin's
build_rpath_args: is_dragonflybsd(), is_openbsd(), is_sunos(). -/
structure BuildHost where
  is_dragonflybsd : Bool
  is_openbsd : Bool
  is_sunos : Bool

/-- mesonlib.OrderedSet.add: append the element unless it is already
present (insertion order is kept, a repeated add leaves the set unchanged). -/
def ordered_set_add (l : List String) (x : String) : List String :=
  if x ∈ l then l else l ++ [x]

/-- mesonlib.OrderedSet built from an iterable: successive adds starting
from the empty set, keeping each element at its first-seen position. -/
def ordered_set (xs : List String) : List String := xs.foldl ordered_set_add []

/-- Structural form of first-seen deduplication: keep the head, drop its
later duplicates, recurse.  Proved equal to ordered_set below. -/
def first_seen : List String → List String
  | [] => []
  | x :: xs => x :: first_seen (xs.filter (fun y => y ≠ x))
termination_by l => l.length
decreasing_by
  simp only [List.length_cons]
  exact Nat.lt_succ_of_le (List.length_filter_le _ _)

/-- Python ':'.join over the ordered set of paths. -/
def colon_join (l : List String) : String := str_join ":" l

/-- RPATH padding for post-install patching (lines 529-535 and 915-921 of
linkers.py): when the joined path string is shorter than install_rpath,
append 'X' filler of the missing length, after a ':' separator unless the
joined string is empty. -/
def pad_rpath (paths install_rpath : String) : String :=
  if paths.length < install_rpath.length then
    let padding := String.mk (List.replicate (install_rpath.length - paths.length) 'X')
    if paths = "" then padding else paths ++ ":" ++ padding
  else paths

/-- The all_paths ordered set computed by GnuLikeDynamicLinkerMixin's (and
SolarisDynamicLinker's) build_rpath_args: resolve and order the raw rpaths,
prefix each with $ORIGIN, deduplicate into an ordered set, then add the
build_rpath string as-is when non-empty. -/
def gnu_all_paths (cwd build_dir from_dir : String) (rpath_paths : List String)
    (build_rpath : String) : Option (List String) := do
  let processed ← prepare_rpaths cwd rpath_paths build_dir from_dir
  let s := ordered_set (processed.map (fun p => path_join "$ORIGIN" p))
  some (if build_rpath ≠ "" then ordered_set_add s build_rpath else s)

/-- GnuLikeDynamicLinkerMixin.build_rpath_args: empty on Windows and Cygwin
targets and when all three rpath inputs are empty; otherwise the optional
dragonfly/openbsd -z,origin directive, the single padded -rpath directive
over the deduplicated ordered set, and, except on SunOS hosts, one
-rpath-link directive per raw input directory anchored at build_dir. -/
def gnu_build_rpath_args (host : BuildHost) (m : Machine) (pre : PrefixArg)
    (cwd build_dir from_dir : String) (rpath_paths : List String)
    (build_rpath install_rpath : String) : Option (List String) :=
  if m.is_windows || m.is_cygwin then some []
  else if rpath_paths = [] ∧ install_rpath = "" ∧ build_rpath = "" then some []
  else do
    let all_paths ← gnu_all_paths cwd build_dir from_dir rpath_paths build_rpath
    let args0 := if host.is_dragonflybsd || host.is_openbsd then apply_pfx pre "-z,origin" else []
    let paths := pad_rpath (colon_join all_paths) install_rpath
    let args1 := args0 ++ apply_pfx pre ("-rpath," ++ paths)
    if host.is_sunos then some args1
    else some (args1 ++
      (rpath_paths.map (fun p => apply_pfx pre ("-rpath-link," ++ path_join build_dir p))).flatten)

/-- The all_paths ordered set of AppleDynamicLinker.build_rpath_args, with
the @loader_path origin placeholder. -/
def apple_all_paths (cwd build_dir from_dir : String) (rpath_paths : List String)
    (build_rpath : String) : Option (List String) := do
  let processed ← prepare_rpaths cwd rpath_paths build_dir from_dir
  let s := ordered_set (processed.map (fun p => path_join "@loader_path" p))
  some (if build_rpath ≠ "" then ordered_set_add s build_rpath else s)

/-- AppleDynamicLinker.build_rpath_args: -headerpad_max_install_names, then
one -rpath directive per ordered-set entry. -/
def apple_build_rpath_args (pre : PrefixArg) (cwd build_dir from_dir : String)
    (rpath_paths : List String) (build_rpath install_rpath : String) :
    Option (List String) :=
  if rpath_paths = [] ∧ install_rpath = "" ∧ build_rpath = "" then some []
  else do
    let all_paths ← apple_all_paths cwd build_dir from_dir rpath_paths build_rpath
    some (apply_pfx pre "-headerpad_max_install_names" ++
      (all_paths.map (fun rp => apply_pfx pre ("-rpath," ++ rp))).flatten)

/-- SolarisDynamicLinker.build_rpath_args: same $ORIGIN ordered set and
padding as the GNU-like mixin, a single -rpath directive, no -rpath-link
loop and no Windows guard. -/
def solaris_build_rpath_args (pre : PrefixArg) (cwd build_dir from_dir : String)
    (rpath_paths : List String) (build_rpath install_rpath : String) :
    Option (List String) :=
  if rpath_paths = [] ∧ install_rpath = "" ∧ build_rpath = "" then some []
  else do
    let all_paths ← gnu_all_paths cwd build_dir from_dir rpath_paths build_rpath
    some (apply_pfx pre ("-rpath," ++ pad_rpath (colon_join all_paths) install_rpath))

/-- GnuLikeDynamicLinkerMixin.get_soname_args: nothing for PE/COFF targets;
otherwise one prefixed -soname directive whose payload is
prefix, shlib_name, '.', suffix, and '.' soversion only when soversion is
not None.  The darwin_versions and is_shared_module parameters are unused
by this variant and omitted. -/
def gnu_get_soname_args (m : Machine) (pre : PrefixArg) (pfx shlib_name suffix : String)
    (soversion : Option String) : List String :=
  if m.is_windows || m.is_cygwin then []
  else
    let sostr := match soversion with
      | none => ""
      | some v => "." ++ v
    apply_pfx pre ("-soname," ++ pfx ++ shlib_name ++ "." ++ suffix ++ sostr)

/-- GnuLikeDynamicLinkerMixin.get_link_whole_for: the empty list is
returned unchanged; otherwise the whole list is wrapped once between the
prefixed --whole-archive and --no-whole-archive markers. -/
def gnu_get_link_whole_for (pre : PrefixArg) (args : List String) : List String :=
  if args = [] then args
  else apply_pfx pre "--whole-archive" ++ args ++ apply_pfx pre "--no-whole-archive"

/-- AppleDynamicLinker.get_link_whole_for: for each member, extend the
result with the prefixed -force_load directive and then the member. -/
def apple_get_link_whole_for (pre : PrefixArg) (args : List String) : List String :=
  args.foldl (fun result a => result ++ apply_pfx pre "-force_load" ++ [a]) []

/-- Exception types raised by the linker layer: mesonlib's
EnvironmentException and MesonException, carrying their message. -/
inductive MesonError where
  | environmentException (msg : String)
  | mesonException (msg : String)
deriving DecidableEq

/-- DynamicLinker.get_pie_args, the base-class default: raise
EnvironmentException naming the linker id. -/
def dynamic_linker_get_pie_args (id_ : String) : Except MesonError (List String) :=
  .error (.environmentException
    ("Linker " ++ id_ ++ " does not support position-independent executable"))

/-- GnuLikeDynamicLinkerMixin.get_pie_args: supported, returns -pie. -/
def gnu_get_pie_args : Except MesonError (List String) := .ok ["-pie"]

/-- GnuLikeDynamicLinkerMixin.sanitizer_args. -/
def gnu_sanitizer_args (value : String) : List String :=
  if value = "none" then [] else ["-fsanitize=" ++ value]

/-- AppleDynamicLinker.sanitizer_args (textually the same body). -/
def apple_sanitizer_args (value : String) : List String :=
  if value = "none" then [] else ["-fsanitize=" ++ value]

/-- The whitespace set of Python's str.strip with no argument (ASCII part). -/
def isPyWhitespace (c : Char) : Bool :=
  c = ' ' || c = '\t' || c = '\n' || c = '\r' || c = '\x0b' || c = '\x0c'

/-- Python str.strip(): drop whitespace from both ends. -/
def pystrip (s : String) : String :=
  String.mk (((s.toList.dropWhile isPyWhitespace).reverse.dropWhile isPyWhitespace).reverse)

/-- CudaLinker.parse_version.  The one-shot external probe
(mesonlib.Popen_safe of nvlink --version) is modelled by its outcome:
none when the call raises OSError, some out for captured stdout.  On
success the result is out.strip().split('V')[-1], the last group of the
stripped output split on 'V'. -/
def cuda_parse_version (probe : Option String) : String :=
  match probe with
  | none => "unknown version"
  | some out => String.mk ((splitCharAux 'V' (pystrip out).toList).getLastD [])

lemma rpath_insert_not_abs (x : String) (l : List String) (h : isabs x = false) :
    rpath_insert x l = x :: l := by
  cases l with
  | nil => rfl
  | cons y ys => simp [rpath_insert, h]

lemma rpath_insert_all_abs (x : String) (l : List String)
    (h : ∀ y ∈ l, isabs y = true) : rpath_insert x l = x :: l := by
  cases l with
  | nil => rfl
  | cons y ys => simp [rpath_insert, h y (List.mem_cons_self y ys)]

lemma rpath_insert_append (x : String) (A B : List String)
    (hA : ∀ y ∈ A, isabs y = false) (hx : isabs x = true) :
    rpath_insert x (A ++ B) = A ++ rpath_insert x B := by
  induction A with
  | nil => rfl
  | cons y ys ih =>
    have hy : isabs y = false := hA y (List.mem_cons_self y ys)
    simp only [List.cons_append, rpath_insert, hy, hx, Bool.not_false, Bool.true_and, if_true]
    exact congrArg (y :: ·) (ih fun z hz => hA z (List.mem_cons_of_mem y hz))

/-- The stable sort by os.path.isabs is the stable partition: relative
entries first, absolute entries after, each group in input order. -/
lemma order_rpaths_eq_stable_partition (l : List String) :
    order_rpaths l = l.filter (fun p => !isabs p) ++ l.filter (fun p => isabs p) := by
  induction l with
  | nil => rfl
  | cons x xs ih =>
    show rpath_insert x (order_rpaths xs) = _
    rw [ih]
    by_cases hx : isabs x = true
    · rw [rpath_insert_append x _ _ (fun y hy => by
          simpa using (List.mem_filter.mp hy).2) hx,
        rpath_insert_all_abs x _ (fun y hy => by
          simpa using (List.mem_filter.mp hy).2)]
      simp [List.filter_cons, hx]
    · have hx' : isabs x = false := by simpa using hx
      rw [rpath_insert_not_abs x _ hx']
      simp [List.filter_cons, hx']

/-- C2: prepare_rpaths places every entry that resolves to a relative path
before every entry that resolves to an absolute path, preserving the
original relative order inside each of the two groups (a stable partition
keyed on os.path.isabs); in particular the raw input
["/abs/path", "relative/path"] is processed to
["relative/path", "/abs/path"]. -/
theorem c2_rpath_ordering :
    (∀ (cwd build_dir from_dir : String) (raw resolved : List String),
        raw.mapM (fun p => evaluate_rpath cwd p build_dir from_dir) = some resolved →
        prepare_rpaths cwd raw build_dir from_dir =
          some (resolved.filter (fun p => !isabs p) ++ resolved.filter (fun p => isabs p))) ∧
    prepare_rpaths "/" ["/abs/path", "relative/path"] "/b" "" =
      some ["relative/path", "/abs/path"] := by
  constructor
  · intro cwd build_dir from_dir raw resolved h
    unfold prepare_rpaths
    rw [h, Option.map_some', order_rpaths_eq_stable_partition]
  · decide

theorem c2_rpath_ordering_witness :
    (["/abs/path", "relative/path"].mapM
        (fun p => evaluate_rpath "/" p "/b" "") = some ["/abs/path", "relative/path"]) ∧
    prepare_rpaths "/" ["/abs/path", "relative/path"] "/b" "" =
      some ((["/abs/path", "relative/path"]).filter (fun p => !isabs p) ++
        (["/abs/path", "relative/path"]).filter (fun p => isabs p)) :=
  ⟨by decide, c2_rpath_ordering.1 "/" "/b" "" _ _ (by decide)⟩

/-- C3 fails as stated: an absolute raw entry that happens to equal
from_dir is resolved by evaluate_rpath's first branch to the empty string,
not passed through unchanged. -/
theorem c3_counterexample :
    evaluate_rpath "/" "/abs" "/b" "/abs" = some "" ∧
    (some "" : Option String) ≠ some "/abs" := by decide

/-- C3 amended: for every filesystem-absolute raw entry p that differs from
from_dir, evaluate_rpath returns p unchanged, independent of the working
directory, build_dir and from_dir; when p equals from_dir it returns the
empty string instead. -/
theorem c3_absolute_passthrough_amended (cwd p build_dir from_dir : String)
    (habs : isabs p = true) (hne : p ≠ from_dir) :
    evaluate_rpath cwd p build_dir from_dir = some p := by
  unfold evaluate_rpath
  rw [if_neg hne, habs]
  simp

theorem c3_absolute_passthrough_amended_witness :
    (isabs "/abs" = true ∧ "/abs" ≠ "") ∧
    evaluate_rpath "/cwd" "/abs" "/b" "" = some "/abs" :=
  ⟨⟨by decide, by decide⟩,
    c3_absolute_passthrough_amended "/cwd" "/abs" "/b" "" (by decide) (by decide)⟩

lemma first_seen_cons (x : String) (xs : List String) :
    first_seen (x :: xs) = x :: first_seen (xs.filter (fun y => y ≠ x)) := by
  rw [first_seen]

/-- Building an OrderedSet by successive adds keeps, beyond the initial
accumulator, exactly the first occurrence of each new element, in order. -/
lemma foldl_ordered_set_add (l : List String) :
    ∀ acc : List String, l.foldl ordered_set_add acc =
      acc ++ first_seen (l.filter (fun x => x ∉ acc)) := by
  induction l with
  | nil => intro acc; simp [first_seen]
  | cons x xs ih =>
    intro acc
    rw [List.foldl_cons]
    by_cases hx : x ∈ acc
    · have hf : List.filter (fun y => y ∉ acc) (x :: xs) =
          List.filter (fun y => y ∉ acc) xs := by
        simp [List.filter_cons, hx]
      rw [ordered_set_add, if_pos hx, ih acc, hf]
    · have h2 : List.filter (fun y => y ∉ acc) (x :: xs) =
          x :: List.filter (fun y => y ∉ acc) xs := by
        simp [List.filter_cons, hx]
      have h1 : List.filter (fun y => y ∉ acc ++ [x]) xs =
          List.filter (fun y => y ≠ x) (List.filter (fun y => y ∉ acc) xs) := by
        rw [List.filter_filter]
        apply List.filter_congr
        intro a _
        by_cases hax : a = x <;> by_cases haacc : a ∈ acc <;> simp [hax, haacc]
      rw [ordered_set_add, if_neg hx, ih (acc ++ [x]), h1, h2, first_seen_cons]
      simp

/-- ordered_set computes exactly the structural first-seen deduplication. -/
lemma ordered_set_eq_first_seen (l : List String) : ordered_set l = first_seen l := by
  unfold ordered_set
  rw [foldl_ordered_set_add]
  simp

lemma mem_first_seen (l : List String) (v : String) : v ∈ first_seen l ↔ v ∈ l := by
  induction l using first_seen.induct with
  | case1 => simp [first_seen]
  | case2 x xs ih =>
    rw [first_seen_cons, List.mem_cons, List.mem_cons, ih, List.mem_filter]
    by_cases hv : v = x <;> simp [hv]

lemma first_seen_nodup (l : List String) : (first_seen l).Nodup := by
  induction l using first_seen.induct with
  | case1 => simp [first_seen]
  | case2 x xs ih =>
    rw [first_seen_cons]
    refine List.nodup_cons.mpr ⟨fun hmem => ?_, ih⟩
    have := (mem_first_seen _ _).mp hmem
    simp [List.mem_filter] at this

/-- C4: the all_paths set that build_rpath_args embeds is the first-seen
deduplication of the placeholder-prefixed processed rpaths (the build_rpath
add never duplicates an existing entry), so any raw entries resolving to
the same $ORIGIN-prefixed path contribute exactly one occurrence, kept at
the position of its first occurrence. -/
theorem c4_dedup_first_seen (cwd build_dir from_dir : String) (rpath_paths : List String)
    (build_rpath : String) (processed ap : List String)
    (hp : prepare_rpaths cwd rpath_paths build_dir from_dir = some processed)
    (hap : gnu_all_paths cwd build_dir from_dir rpath_paths build_rpath = some ap) :
    ap = (if build_rpath ≠ "" then
            ordered_set_add (first_seen (processed.map (fun p => path_join "$ORIGIN" p)))
              build_rpath
          else first_seen (processed.map (fun p => path_join "$ORIGIN" p))) ∧
    ∀ v, v ∈ processed.map (fun p => path_join "$ORIGIN" p) → ap.count v = 1 := by
  unfold gnu_all_paths at hap
  rw [hp] at hap
  simp only [Option.bind_eq_bind, Option.some_bind, Option.some.injEq] at hap
  rw [ordered_set_eq_first_seen] at hap
  subst hap
  refine ⟨rfl, fun v hv => ?_⟩
  have hmem : v ∈ first_seen (processed.map (fun p => path_join "$ORIGIN" p)) :=
    (mem_first_seen _ _).mpr hv
  have hcount : (first_seen (processed.map (fun p => path_join "$ORIGIN" p))).count v = 1 :=
    List.count_eq_one_of_mem (first_seen_nodup _) hmem
  by_cases hbr : build_rpath ≠ ""
  · rw [if_pos hbr]
    unfold ordered_set_add
    by_cases hin : build_rpath ∈ first_seen (processed.map (fun p => path_join "$ORIGIN" p))
    · rw [if_pos hin]; exact hcount
    · rw [if_neg hin, List.count_append, hcount]
      have hne : build_rpath ≠ v := fun h => hin (h ▸ hmem)
      simp [List.count_singleton', hne, Ne.symm hne]
  · rw [if_neg hbr]; exact hcount

theorem c4_dedup_first_seen_witness :
    (prepare_rpaths "/" ["a", "sub/../a", "a"] "/b" "" = some ["a", "a", "a"] ∧
      gnu_all_paths "/" "/b" "" ["a", "sub/../a", "a"] "" = some ["$ORIGIN/a"]) ∧
    (["$ORIGIN/a"] =
        first_seen ((["a", "a", "a"]).map (fun p => path_join "$ORIGIN" p)) ∧
      ∀ v, v ∈ (["a", "a", "a"]).map (fun p => path_join "$ORIGIN" p) →
        (["$ORIGIN/a"]).count v = 1) := by
  refine ⟨⟨by decide, by decide⟩, ?_⟩
  have h := c4_dedup_first_seen "/" "/b" "" ["a", "sub/../a", "a"] "" ["a", "a", "a"]
    ["$ORIGIN/a"] (by decide) (by decide)
  simpa using h

/-- C5 fails as stated: a non-empty build_rpath that textually equals one
of the placeholder-prefixed entries is absorbed by the ordered set's add
and is not appended after the list — the embedded argument is
-rpath,$ORIGIN/a, not -rpath,$ORIGIN/a:$ORIGIN/a. -/
theorem c5_counterexample :
    gnu_build_rpath_args ⟨false, false, false⟩ ⟨false, false⟩ (.str "-Wl,") "/" "/b" ""
        ["a"] "$ORIGIN/a" "" =
      some ["-Wl,-rpath,$ORIGIN/a", "-Wl,-rpath-link,/b/a"] ∧
    "-Wl,-rpath,$ORIGIN/a:$ORIGIN/a" ∉
      (["-Wl,-rpath,$ORIGIN/a", "-Wl,-rpath-link,/b/a"] : List String) := by decide

/-- C5 amended: a non-empty build_rpath string is added to the ordered set
after the processed, deduplicated placeholder-prefixed list, without
origin-relativization; the add is subject to the same first-seen
deduplication, so it is appended at the end only when it is not already
textually present, and otherwise leaves the set unchanged. -/
theorem c5_build_rpath_amended (cwd build_dir from_dir : String) (rpath_paths : List String)
    (build_rpath : String) (processed : List String)
    (hp : prepare_rpaths cwd rpath_paths build_dir from_dir = some processed)
    (hbr : build_rpath ≠ "") :
    gnu_all_paths cwd build_dir from_dir rpath_paths build_rpath =
      some (if build_rpath ∈ first_seen (processed.map (fun p => path_join "$ORIGIN" p)) then
              first_seen (processed.map (fun p => path_join "$ORIGIN" p))
            else first_seen (processed.map (fun p => path_join "$ORIGIN" p)) ++ [build_rpath]) := by
  unfold gnu_all_paths
  rw [hp]
  simp only [Option.bind_eq_bind, Option.some_bind, if_pos hbr,
    ordered_set_eq_first_seen, ordered_set_add]

theorem c5_build_rpath_amended_witness :
    (prepare_rpaths "/" ["a"] "/b" "" = some ["a"] ∧ "/opt/build" ≠ "") ∧
    gnu_all_paths "/" "/b" "" ["a"] "/opt/build" =
      some (if "/opt/build" ∈ first_seen ((["a"]).map (fun p => path_join "$ORIGIN" p)) then
              first_seen ((["a"]).map (fun p => path_join "$ORIGIN" p))
            else first_seen ((["a"]).map (fun p => path_join "$ORIGIN" p)) ++ ["/opt/build"]) :=
  ⟨⟨by decide, by decide⟩,
    c5_build_rpath_amended "/" "/b" "" ["a"] "/opt/build" ["a"] (by decide) (by decide)⟩

lemma length_mk_replicate (n : Nat) (c : Char) :
    (String.mk (List.replicate n c)).length = n := by
  show (List.replicate n c).length = n
  exact List.length_replicate n c

lemma pad_rpath_of_ne (paths install_rpath : String)
    (hlt : paths.length < install_rpath.length) (hne : paths ≠ "") :
    pad_rpath paths install_rpath =
      paths ++ ":" ++
        String.mk (List.replicate (install_rpath.length - paths.length) 'X') := by
  unfold pad_rpath
  rw [if_pos hlt, if_neg hne]

lemma pad_rpath_of_empty (install_rpath : String) (hpos : 0 < install_rpath.length) :
    pad_rpath "" install_rpath = String.mk (List.replicate install_rpath.length 'X') := by
  have h0 : ("" : String).length = 0 := rfl
  unfold pad_rpath
  rw [h0, if_pos hpos]
  simp

/-- C1 fails as stated: with a non-empty joined path string P shorter than
install_rpath, the embedded value is P, a ':' separator, and
len(install_rpath) - len(P) filler characters, so its total length is
len(install_rpath) + 1, not len(install_rpath).  Here P is $ORIGIN/a of
length 9, install_rpath has length 20, and the embedded payload has
length 21. -/
theorem c1_counterexample :
    gnu_build_rpath_args ⟨false, false, false⟩ ⟨false, false⟩ (.str "-Wl,") "/" "/b" ""
        ["a"] "" "/usr/local/lib64/sub" =
      some ["-Wl,-rpath,$ORIGIN/a:XXXXXXXXXXX", "-Wl,-rpath-link,/b/a"] ∧
    ("$ORIGIN/a:XXXXXXXXXXX" : String).length ≠ ("/usr/local/lib64/sub" : String).length := by
  decide

/-- C1 amended: when the ordered set joins to a string P shorter than
install_rpath, build_rpath_args embeds the single -rpath directive whose
payload is pad_rpath P install_rpath; for non-empty P that payload is P, a
separating ':', and len(install_rpath) - len(P) 'X' characters, of total
length len(install_rpath) + 1; only for empty P is it exactly
len(install_rpath) 'X' characters with no separator. -/
theorem c1_padding_amended (host : BuildHost) (m : Machine) (pre : PrefixArg)
    (cwd build_dir from_dir : String) (rpath_paths : List String)
    (build_rpath install_rpath : String) (ap : List String)
    (hw : m.is_windows = false) (hc : m.is_cygwin = false)
    (hap : gnu_all_paths cwd build_dir from_dir rpath_paths build_rpath = some ap)
    (hlt : (colon_join ap).length < install_rpath.length) :
    gnu_build_rpath_args host m pre cwd build_dir from_dir rpath_paths
        build_rpath install_rpath =
      some ((if host.is_dragonflybsd || host.is_openbsd then apply_pfx pre "-z,origin" else []) ++
        apply_pfx pre ("-rpath," ++ pad_rpath (colon_join ap) install_rpath) ++
        (if host.is_sunos then []
         else (rpath_paths.map
            (fun p => apply_pfx pre ("-rpath-link," ++ path_join build_dir p))).flatten)) ∧
    (colon_join ap ≠ "" →
      pad_rpath (colon_join ap) install_rpath =
        colon_join ap ++ ":" ++
          String.mk (List.replicate (install_rpath.length - (colon_join ap).length) 'X') ∧
      (pad_rpath (colon_join ap) install_rpath).length = install_rpath.length + 1) ∧
    (colon_join ap = "" →
      pad_rpath (colon_join ap) install_rpath =
        String.mk (List.replicate install_rpath.length 'X') ∧
      (pad_rpath (colon_join ap) install_rpath).length = install_rpath.length) := by
  have hlen0 : 0 < install_rpath.length := Nat.lt_of_le_of_lt (Nat.zero_le _) hlt
  have hir : install_rpath ≠ "" := by
    intro h
    subst h
    exact Nat.lt_irrefl 0 hlen0
  refine ⟨?_, ?_, ?_⟩
  · unfold gnu_build_rpath_args
    rw [if_neg (by simp [hw, hc]), if_neg (fun hcon => hir hcon.2.1), hap]
    simp only [Option.bind_eq_bind, Option.some_bind]
    by_cases hs : host.is_sunos <;> simp [hs]
  · intro hPne
    have h1 := pad_rpath_of_ne (colon_join ap) install_rpath hlt hPne
    refine ⟨h1, ?_⟩
    rw [h1, String.length_append, String.length_append, length_mk_replicate]
    have h3 : (":" : String).length = 1 := rfl
    rw [h3]
    omega
  · intro hPe
    rw [hPe]
    rw [hPe] at hlt
    have h0 : ("" : String).length = 0 := rfl
    rw [h0] at hlt
    have h1 := pad_rpath_of_empty install_rpath hlt
    exact ⟨h1, by rw [h1, length_mk_replicate]⟩

theorem c1_padding_amended_witness :
    ((⟨false, false⟩ : Machine).is_windows = false ∧
      (⟨false, false⟩ : Machine).is_cygwin = false ∧
      gnu_all_paths "/" "/b" "" ["a"] "" = some ["$ORIGIN/a"] ∧
      (colon_join ["$ORIGIN/a"]).length < ("/usr/lib/custom" : String).length) ∧
    (gnu_build_rpath_args ⟨false, false, false⟩ ⟨false, false⟩ (.str "-Wl,") "/" "/b" ""
        ["a"] "" "/usr/lib/custom" =
      some ((if (false : Bool) || false then apply_pfx (.str "-Wl,") "-z,origin" else []) ++
        apply_pfx (.str "-Wl,")
          ("-rpath," ++ pad_rpath (colon_join ["$ORIGIN/a"]) "/usr/lib/custom") ++
        (if (false : Bool) then []
         else ((["a"] : List String).map
            (fun p => apply_pfx (.str "-Wl,") ("-rpath-link," ++ path_join "/b" p))).flatten)) ∧
      (colon_join ["$ORIGIN/a"] ≠ "" →
        pad_rpath (colon_join ["$ORIGIN/a"]) "/usr/lib/custom" =
          colon_join ["$ORIGIN/a"] ++ ":" ++
            String.mk (List.replicate (("/usr/lib/custom" : String).length -
              (colon_join ["$ORIGIN/a"]).length) 'X') ∧
        (pad_rpath (colon_join ["$ORIGIN/a"]) "/usr/lib/custom").length =
          ("/usr/lib/custom" : String).length + 1) ∧
      (colon_join ["$ORIGIN/a"] = "" →
        pad_rpath (colon_join ["$ORIGIN/a"]) "/usr/lib/custom" =
          String.mk (List.replicate ("/usr/lib/custom" : String).length 'X') ∧
        (pad_rpath (colon_join ["$ORIGIN/a"]) "/usr/lib/custom").length =
          ("/usr/lib/custom" : String).length)) :=
  ⟨⟨rfl, rfl, by decide, by decide⟩,
    c1_padding_amended ⟨false, false, false⟩ ⟨false, false⟩ (.str "-Wl,") "/" "/b" ""
      ["a"] "" "/usr/lib/custom" ["$ORIGIN/a"] rfl rfl (by decide) (by decide)⟩

/-- C6: on a non-Windows, non-Cygwin target the GNU-like linker emits a
single prefixed -soname directive; with prefix lib, base foo, suffix so and
soversion 1 its payload encodes libfoo.so.1, and with soversion None the
version segment is omitted, encoding libfoo.so. -/
theorem c6_soname (m : Machine) (pre : PrefixArg)
    (hw : m.is_windows = false) (hc : m.is_cygwin = false) :
    gnu_get_soname_args m pre "lib" "foo" "so" (some "1") =
      apply_pfx pre "-soname,libfoo.so.1" ∧
    gnu_get_soname_args m pre "lib" "foo" "so" none =
      apply_pfx pre "-soname,libfoo.so" := by
  unfold gnu_get_soname_args
  rw [hw, hc]
  exact ⟨rfl, rfl⟩

theorem c6_soname_witness :
    ((⟨false, false⟩ : Machine).is_windows = false ∧
      (⟨false, false⟩ : Machine).is_cygwin = false) ∧
    (gnu_get_soname_args ⟨false, false⟩ (.str "-Wl,") "lib" "foo" "so" (some "1") =
        apply_pfx (.str "-Wl,") "-soname,libfoo.so.1" ∧
      gnu_get_soname_args ⟨false, false⟩ (.str "-Wl,") "lib" "foo" "so" none =
        apply_pfx (.str "-Wl,") "-soname,libfoo.so") :=
  ⟨⟨rfl, rfl⟩, c6_soname ⟨false, false⟩ (.str "-Wl,") rfl rfl⟩

lemma foldl_force_load (pre : PrefixArg) (args : List String) :
    ∀ acc : List String,
      args.foldl (fun result a => result ++ apply_pfx pre "-force_load" ++ [a]) acc =
        acc ++ (args.map (fun a => apply_pfx pre "-force_load" ++ [a])).flatten := by
  induction args with
  | nil => intro acc; simp
  | cons x xs ih =>
    intro acc
    rw [List.foldl_cons, ih]
    simp

/-- C7: the GNU-like linker wraps a non-empty archive list exactly once
between prefixed --whole-archive and --no-whole-archive markers, the Apple
linker precedes each member with its own prefixed -force_load, and both
return the empty list unchanged with no markers. -/
theorem c7_link_whole (pre : PrefixArg) (args : List String) (hne : args ≠ []) :
    gnu_get_link_whole_for pre [] = [] ∧
    apple_get_link_whole_for pre [] = [] ∧
    gnu_get_link_whole_for pre args =
      apply_pfx pre "--whole-archive" ++ args ++ apply_pfx pre "--no-whole-archive" ∧
    apple_get_link_whole_for pre args =
      (args.map (fun a => apply_pfx pre "-force_load" ++ [a])).flatten ∧
    gnu_get_link_whole_for (.str "") ["a.a", "b.a"] =
      ["--whole-archive", "a.a", "b.a", "--no-whole-archive"] ∧
    apple_get_link_whole_for (.str "") ["a.a", "b.a"] =
      ["-force_load", "a.a", "-force_load", "b.a"] := by
  refine ⟨rfl, rfl, ?_, ?_, by decide, by decide⟩
  · unfold gnu_get_link_whole_for
    rw [if_neg hne]
  · unfold apple_get_link_whole_for
    rw [foldl_force_load]
    simp

theorem c7_link_whole_witness :
    ((["a.a", "b.a"] : List String) ≠ []) ∧
    (gnu_get_link_whole_for (.str "-Wl,") [] = [] ∧
      apple_get_link_whole_for (.str "-Wl,") [] = [] ∧
      gnu_get_link_whole_for (.str "-Wl,") ["a.a", "b.a"] =
        apply_pfx (.str "-Wl,") "--whole-archive" ++ ["a.a", "b.a"] ++
          apply_pfx (.str "-Wl,") "--no-whole-archive" ∧
      apple_get_link_whole_for (.str "-Wl,") ["a.a", "b.a"] =
        ((["a.a", "b.a"] : List String).map
          (fun a => apply_pfx (.str "-Wl,") "-force_load" ++ [a])).flatten ∧
      gnu_get_link_whole_for (.str "") ["a.a", "b.a"] =
        ["--whole-archive", "a.a", "b.a", "--no-whole-archive"] ∧
      apple_get_link_whole_for (.str "") ["a.a", "b.a"] =
        ["-force_load", "a.a", "-force_load", "b.a"]) :=
  ⟨by decide, c7_link_whole (.str "-Wl,") ["a.a", "b.a"] (by decide)⟩

/-- C8: the base-class get_pie_args default raises the typed
EnvironmentException whose message carries the linker id; it never returns
any ok value, in particular not the empty argument list, which keeps it
distinguishable from a variant (such as the GNU-like mixin) that supports
PIE and returns arguments. -/
theorem c8_pie_unsupported (id_ : String) :
    dynamic_linker_get_pie_args id_ =
      .error (.environmentException
        ("Linker " ++ id_ ++ " does not support position-independent executable")) ∧
    (∀ res : List String, dynamic_linker_get_pie_args id_ ≠ .ok res) ∧
    gnu_get_pie_args = .ok ["-pie"] :=
  ⟨rfl, fun _ h => Except.noConfusion h, rfl⟩

/-- C10: on both the GNU-like and the Apple linker, sanitizer_args maps the
selector none silently to no arguments and every other selector v to the
single argument -fsanitize= followed by v. -/
theorem c10_sanitizer (value : String) :
    (value = "none" → gnu_sanitizer_args value = [] ∧ apple_sanitizer_args value = []) ∧
    (value ≠ "none" →
      gnu_sanitizer_args value = ["-fsanitize=" ++ value] ∧
      apple_sanitizer_args value = ["-fsanitize=" ++ value]) := by
  unfold gnu_sanitizer_args apple_sanitizer_args
  constructor
  · intro h
    rw [if_pos h]
    exact ⟨rfl, rfl⟩
  · intro h
    rw [if_neg h]
    exact ⟨rfl, rfl⟩

theorem c10_sanitizer_witness :
    (gnu_sanitizer_args "none" = [] ∧ apple_sanitizer_args "none" = []) ∧
    (gnu_sanitizer_args "address" = ["-fsanitize=" ++ "address"] ∧
      apple_sanitizer_args "address" = ["-fsanitize=" ++ "address"]) :=
  ⟨(c10_sanitizer "none").1 rfl, (c10_sanitizer "address").2 (by decide)⟩

lemma splitCharAux_ne_nil (c : Char) (l : List Char) : splitCharAux c l ≠ [] := by
  cases l with
  | nil => simp [splitCharAux]
  | cons x xs =>
    unfold splitCharAux
    cases h : splitCharAux c xs with
    | nil => simp
    | cons g gs => by_cases hx : x = c <;> simp [hx]

lemma splitCharAux_of_not_mem (c : Char) (l : List Char) (h : c ∉ l) :
    splitCharAux c l = [l] := by
  induction l with
  | nil => rfl
  | cons x xs ih =>
    have hx : x ≠ c := fun he => h (he ▸ List.mem_cons_self x xs)
    have hxs : c ∉ xs := fun hm => h (List.mem_cons_of_mem x hm)
    unfold splitCharAux
    rw [ih hxs]
    simp [hx]

lemma splitCharAux_length_ge_two (c : Char) (l : List Char) (h : c ∈ l) :
    2 ≤ (splitCharAux c l).length := by
  induction l with
  | nil => simp at h
  | cons x xs ih =>
    unfold splitCharAux
    cases hs : splitCharAux c xs with
    | nil => exact absurd hs (splitCharAux_ne_nil c xs)
    | cons g gs =>
      by_cases hx : x = c
      · simp [hx]
      · have hcxs : c ∈ xs := by
          rcases List.mem_cons.mp h with he | hm
          · exact absurd he.symm hx
          · exact hm
        have h2 := ih hcxs
        rw [hs] at h2
        simp only [List.length_cons] at h2 ⊢
        simpa [hx] using h2

lemma getLastD_of_ne_nil {α : Type} (l : List α) (h : l ≠ []) (d₁ d₂ : α) :
    l.getLastD d₁ = l.getLastD d₂ := by
  cases l with
  | nil => exact absurd rfl h
  | cons y ys => rw [List.getLastD_cons, List.getLastD_cons]

lemma splitCharAux_cons_eq (c x : Char) (xs g : List Char) (gs : List (List Char))
    (hs : splitCharAux c xs = g :: gs) :
    splitCharAux c (x :: xs) = if x = c then [] :: g :: gs else (x :: g) :: gs := by
  unfold splitCharAux
  rw [hs]

/-- The last group of a split at the final separator occurrence is exactly
the suffix after that separator. -/
lemma getLastD_splitCharAux (c : Char) (l₁ l₂ : List Char) (h : c ∉ l₂) :
    (splitCharAux c (l₁ ++ c :: l₂)).getLastD [] = l₂ := by
  induction l₁ with
  | nil =>
    rw [List.nil_append,
      splitCharAux_cons_eq c c l₂ l₂ [] (splitCharAux_of_not_mem c l₂ h),
      if_pos rfl, List.getLastD_cons, List.getLastD_cons]
    rfl
  | cons x l₁ ih =>
    rw [List.cons_append]
    cases hs : splitCharAux c (l₁ ++ c :: l₂) with
    | nil => exact absurd hs (splitCharAux_ne_nil _ _)
    | cons g gs =>
      have hlen : 2 ≤ (splitCharAux c (l₁ ++ c :: l₂)).length :=
        splitCharAux_length_ge_two _ _ (by simp)
      rw [hs] at hlen
      have hgs : gs ≠ [] := by
        intro h'
        subst h'
        simp at hlen
      have ihg : (g :: gs).getLastD [] = l₂ := hs ▸ ih
      rw [List.getLastD_cons] at ihg
      rw [splitCharAux_cons_eq c x _ g gs hs]
      by_cases hx : x = c
      · rw [if_pos hx, List.getLastD_cons, List.getLastD_cons]
        exact (getLastD_of_ne_nil gs hgs _ _).trans ihg
      · rw [if_neg hx, List.getLastD_cons]
        exact (getLastD_of_ne_nil gs hgs _ _).trans ihg

lemma mk_toList (s : String) : String.mk s.toList = s := by
  cases s
  rfl

/-- C9 fails as stated: probe output that contains no 'V' is not mapped to
the sentinel; split('V') of such output is the single whole group and the
parse returns the entire stripped output. -/
theorem c9_counterexample :
    cuda_parse_version (some "no caps here") = "no caps here" ∧
    "no caps here" ≠ "unknown version" := by decide

/-- C9 amended: the parse returns the sentinel unknown version exactly when
the probe itself fails (OSError); on captured output it returns the
substring after the last 'V' of the stripped output, and when the stripped
output contains no 'V' at all it returns that entire stripped output rather
than the sentinel. -/
theorem c9_parse_version_amended :
    cuda_parse_version none = "unknown version" ∧
    (∀ out : String, 'V' ∉ (pystrip out).toList →
      cuda_parse_version (some out) = pystrip out) ∧
    (∀ (out : String) (l₁ l₂ : List Char),
      (pystrip out).toList = l₁ ++ 'V' :: l₂ → 'V' ∉ l₂ →
      cuda_parse_version (some out) = String.mk l₂) := by
  refine ⟨rfl, ?_, ?_⟩
  · intro out h
    show String.mk ((splitCharAux 'V' (pystrip out).toList).getLastD []) = pystrip out
    rw [splitCharAux_of_not_mem _ _ h, List.getLastD_cons]
    exact mk_toList _
  · intro out l₁ l₂ h hV
    show String.mk ((splitCharAux 'V' (pystrip out).toList).getLastD []) = String.mk l₂
    rw [h, getLastD_splitCharAux _ _ _ hV]

theorem c9_parse_version_amended_witness :
    ((pystrip " release 9.0, V9.0.1 ").toList =
        ("release 9.0, ".toList) ++ 'V' :: ("9.0.1".toList) ∧
      'V' ∉ ("9.0.1".toList)) ∧
    cuda_parse_version (some " release 9.0, V9.0.1 ") = String.mk ("9.0.1".toList) :=
  ⟨⟨by decide, by decide⟩,
    c9_parse_version_amended.2.2 " release 9.0, V9.0.1 " ("release 9.0, ".toList)
      ("9.0.1".toList) (by decide) (by decide)⟩
